import Mathlib

/-!
Verification of the audio engine core: a shallow embedding in Lean 4 of the
types and operations of the repository (sample-rate and gain/pan value types,
the pre-allocated realtime buffer, the interleaved audio buffer, the SPSC ring
buffer wrapper, parameter smoothing, and the biquad/pan effects), together with
theorems settling the specified properties.

Modelling conventions:
* Rust `f32` is modelled as `ℝ`; `usize`/`u32` as `ℕ`.
* Fallible Rust functions returning `Result` are modelled with `Except`;
  functions that can panic are modelled with `Option` (`none` = panic).
* Mutation is modelled by explicit state passing: a `&mut self` method becomes
  a function returning the updated value.
-/

/-- The error kinds of `src/error.rs` that the verified operations produce. -/
inductive AudioEngineError where
  | InvalidSampleRate (value : ℕ)
  | BufferOverflow (attempted capacity : ℕ)
  | RingBufferFull (count : ℕ)
  | RingBufferEmpty (count : ℕ)
deriving DecidableEq, Repr

/-- `SampleRate` from `src/types/sample.rs`: the supported enumerated rates. -/
inductive SampleRate where
  | Hz44100
  | Hz48000
  | Hz96000
  | Hz192000
deriving DecidableEq, Repr

/-- `SampleRate::as_hz`: the numeric value of the `#[repr(u32)]` enum. -/
def SampleRate.as_hz : SampleRate → ℕ
  | .Hz44100 => 44100
  | .Hz48000 => 48000
  | .Hz96000 => 96000
  | .Hz192000 => 192000

/-- `impl TryFrom<u32> for SampleRate` (src/types/sample.rs lines 80-92).
Note the source maps the literal `19200` (not `192000`) to `Hz192000`. -/
def SampleRate.tryFrom (value : ℕ) : Except AudioEngineError SampleRate :=
  if value = 44100 then .ok .Hz44100
  else if value = 48000 then .ok .Hz48000
  else if value = 96000 then .ok .Hz96000
  else if value = 19200 then .ok .Hz192000
  else .error (.InvalidSampleRate value)

/-- `ChannelCount` from `src/types/audio.rs`. -/
inductive ChannelCount where
  | Mono
  | Stereo
  | Quad
  | Surround51
  | Surround71
deriving DecidableEq, Repr

/-- `ChannelCount::count` / `count_usize`. -/
def ChannelCount.count : ChannelCount → ℕ
  | .Mono => 1
  | .Stereo => 2
  | .Quad => 4
  | .Surround51 => 6
  | .Surround71 => 8

/-- The `Sample` newtype of `src/types/sample.rs` is a plain `f32` wrapper;
its `f32` payload is modelled as `ℝ`. -/
abbrev Sample := ℝ

/-- `Sample::SILENCE` (zero amplitude). -/
noncomputable def Sample.SILENCE : Sample := 0

/-- `RealtimeBuffer<T>` (src/buffer/realtime.rs): a fixed backing store
(`data`, whose length is the capacity) and a valid length `len`. -/
structure RealtimeBuffer (α : Type) where
  data : List α
  len : ℕ
deriving DecidableEq, Repr

/-- `RealtimeBuffer::capacity` = `self.data.len()`. -/
def RealtimeBuffer.capacity (b : RealtimeBuffer α) : ℕ := b.data.length

/-- `RealtimeBuffer::with_value(capacity, value)`: fill and set `len = capacity`. -/
def RealtimeBuffer.with_value (capacity : ℕ) (value : α) : RealtimeBuffer α :=
  ⟨List.replicate capacity value, capacity⟩

/-- `RealtimeBuffer::copy_from_slice(src)` (src/buffer/realtime.rs lines 89-99):
errors without touching the buffer when `src.len() > self.data.len()`,
otherwise overwrites the prefix and sets `len = src.len()`. Returns the
post-call buffer together with the `Result<()>`. -/
def RealtimeBuffer.copy_from_slice (b : RealtimeBuffer α) (src : List α) :
    RealtimeBuffer α × Except AudioEngineError Unit :=
  if src.length > b.data.length then
    (b, .error (.BufferOverflow src.length b.data.length))
  else
    (⟨src ++ b.data.drop src.length, src.length⟩, .ok ())

/-- `RealtimeBuffer::get(index)`: `Some` only below `len`. -/
def RealtimeBuffer.get (b : RealtimeBuffer α) (index : ℕ) : Option α :=
  if index < b.len then b.data.get? index else none

/-- `AudioBuffer` (src/buffer/realtime.rs): interleaved samples over a
`RealtimeBuffer`, with a channel count and frame count. -/
structure AudioBuffer where
  data : RealtimeBuffer Sample
  channels : ChannelCount
  frames : ℕ

/-- `AudioBuffer::new(frames, channels)`: `frames * channels` samples,
silence-filled (via `RealtimeBuffer::with_value`). -/
noncomputable def AudioBuffer.new (frames : ℕ) (channels : ChannelCount) : AudioBuffer :=
  ⟨RealtimeBuffer.with_value (frames * channels.count) Sample.SILENCE, channels, frames⟩

/-- `AudioBuffer::get_sample(frame, channel)` (src/buffer/realtime.rs 284-293). -/
def AudioBuffer.get_sample (b : AudioBuffer) (frame channel : ℕ) : Option Sample :=
  if frame < b.frames ∧ channel < b.channels.count then
    b.data.get (frame * b.channels.count + channel)
  else
    none

/-- The arithmetic primitives a `SmoothParam` ramp uses, kept abstract so the
ramp theorems hold for any arithmetic — in particular for `f32`, whose rounding
we must not assume away. `ofNat` models the Rust `samples as f32` cast. -/
structure FloatOps (α : Type) where
  add : α → α → α
  sub : α → α → α
  mul : α → α → α
  div : α → α → α
  ofNat : ℕ → α

/-- The instantiation of the abstract arithmetic at the `ℝ` model of `f32`. -/
noncomputable def realOps : FloatOps ℝ :=
  ⟨fun a b => a + b, fun a b => a - b, fun a b => a * b, fun a b => a / b,
    fun n => (n : ℝ)⟩

/-- `SmoothParam` (src/dsp/params.rs lines 201-207): a linear ramp from
`current` toward `target` over `samples_remaining` steps of `increment`. -/
structure SmoothParam (α : Type) where
  current : α
  target : α
  increment : α
  samples_remaining : ℕ
deriving DecidableEq, Repr

/-- `SmoothParam::new(initial)`. -/
def SmoothParam.new (F : FloatOps α) (initial : α) : SmoothParam α :=
  ⟨initial, initial, F.ofNat 0, 0⟩

/-- `SmoothParam::set_target(target, samples)` (src/dsp/params.rs 220-230):
`samples == 0` jumps immediately, otherwise begins a ramp with
`increment = (target - current) / samples`. -/
def SmoothParam.set_target (F : FloatOps α) (p : SmoothParam α) (target : α)
    (samples : ℕ) : SmoothParam α :=
  if samples = 0 then
    { p with target := target, current := target, increment := F.ofNat 0,
             samples_remaining := 0 }
  else
    { p with target := target,
             increment := F.div (F.sub target p.current) (F.ofNat samples),
             samples_remaining := samples }

/-- `SmoothParam::set_immediate(value)`. -/
def SmoothParam.set_immediate (F : FloatOps α) (p : SmoothParam α) (value : α) :
    SmoothParam α :=
  { p with current := value, target := value, increment := F.ofNat 0,
           samples_remaining := 0 }

/-- `SmoothParam::is_smoothing()`. -/
def SmoothParam.is_smoothing (p : SmoothParam α) : Bool :=
  decide (0 < p.samples_remaining)

/-- `SmoothParam::next()` (src/dsp/params.rs 255-264): advance the ramp by one
step, snapping to the exact `target` when the remaining count reaches zero.
Returns the new `current` together with the updated state. -/
def SmoothParam.next (F : FloatOps α) (p : SmoothParam α) : α × SmoothParam α :=
  if 0 < p.samples_remaining then
    let stepped := F.add p.current p.increment
    let remaining := p.samples_remaining - 1
    let current := if remaining = 0 then p.target else stepped
    (current, { p with current := current, samples_remaining := remaining })
  else
    (p.current, p)

/-- `n` successive calls of `SmoothParam::next()`. -/
def SmoothParam.nextN (F : FloatOps α) (p : SmoothParam α) : ℕ → SmoothParam α
  | 0 => p
  | n + 1 => SmoothParam.nextN F (p.next F).2 n

/-- The `Gain::new(linear)` constructor (src/types/sample.rs 244-249) asserts
`linear >= 0.0` and finiteness; `none` models the panic (finiteness always
holds in the `ℝ` model). -/
noncomputable def Gain.new (linear : ℝ) : Option ℝ :=
  if 0 ≤ linear then some linear else none

/-- `Gain::from_db(db)` (src/types/sample.rs 262-271): silence at or below
-80 dB, otherwise `10^(min(db, 24) / 20)`. -/
noncomputable def Gain.from_db (db : ℝ) : ℝ :=
  if db ≤ -80 then 0 else (10 : ℝ) ^ (min db 24 / 20)

/-- `Gain::as_db()` (src/types/sample.rs 279-287): -80 dB for non-positive
linear values, otherwise `20 * log10(linear)`. -/
noncomputable def Gain.as_db (linear : ℝ) : ℝ :=
  if linear ≤ 0 then -80 else 20 * Real.logb 10 linear

/-- The constant-power pan angle `(pan + 1) * FRAC_PI_4` of
`Pan::left_gain`/`right_gain` (src/types/sample.rs 437-450). -/
noncomputable def Pan.angle (p : ℝ) : ℝ := (p + 1) * (Real.pi / 4)

/-- `Pan::left_gain`: `Gain::new(cos(angle))`, which can panic (`none`). -/
noncomputable def Pan.left_gain (p : ℝ) : Option ℝ :=
  Gain.new (Real.cos (Pan.angle p))

/-- `Pan::right_gain`: `Gain::new(sin(angle))`. -/
noncomputable def Pan.right_gain (p : ℝ) : Option ℝ :=
  Gain.new (Real.sin (Pan.angle p))

/-- `Pan::gains`: the `(left, right)` pair; `none` when either constructor
would panic. -/
noncomputable def Pan.gains (p : ℝ) : Option (ℝ × ℝ) :=
  (Pan.left_gain p).bind fun l => (Pan.right_gain p).bind fun r => some (l, r)

/-- `Pan::new(value)` clamps to `[-1, 1]`. -/
noncomputable def Pan.new (value : ℝ) : ℝ := max (-1) (min value 1)

/-- Modelled from the spec: the inner `rtrb::Producer::push` of the SPSC ring
buffer (the `rtrb` crate is outside this repository). Per spec paragraph 4.3 a
push fails exactly when all `capacity` slots hold outstanding elements, and an
accepted element is appended at the back of the FIFO. -/
def rtrbPush (capacity : ℕ) (queue : List α) (v : α) : Option (List α) :=
  if queue.length < capacity then some (queue ++ [v]) else none

/-- Modelled from the spec: the inner `rtrb::Consumer::pop`. A pop fails
exactly when no element is outstanding, and otherwise removes the front
element of the FIFO. -/
def rtrbPop (queue : List α) : Option (α × List α) :=
  match queue with
  | [] => none
  | x :: rest => some (x, rest)

/-- The observable history of one ring buffer: the outstanding FIFO `queue`
plus logs of every element offered to the writer (`attempted`), every element
the queue accepted (`accepted`), every element removed in consumption order
(`consumed`, whether popped or discarded), and every element actually returned
to the reader (`popped`). -/
structure RBState (α : Type) where
  queue : List α
  attempted : List α
  accepted : List α
  consumed : List α
  popped : List α
deriving DecidableEq, Repr

/-- The state of a freshly constructed `RingBuffer::new(capacity)` pair. -/
def RBState.init : RBState α := ⟨[], [], [], [], []⟩

/-- `RingBufferWriter::push` (src/buffer/ring.rs 64-68): a full queue yields
`AudioEngineError::RingBufferFull {count: 1}`. -/
def RBState.push (capacity : ℕ) (s : RBState α) (v : α) :
    RBState α × Except AudioEngineError Unit :=
  match rtrbPush capacity s.queue v with
  | some q => ({ s with queue := q, attempted := s.attempted ++ [v],
                        accepted := s.accepted ++ [v] }, .ok ())
  | none => ({ s with attempted := s.attempted ++ [v] },
             .error (.RingBufferFull 1))

/-- The loop body of `RingBufferWriter::push_slice` (src/buffer/ring.rs
73-86): push leading elements until one fails, returning the new queue and
the list of elements actually pushed. -/
def pushSliceAux (capacity : ℕ) (queue : List α) : List α → List α × List α
  | [] => (queue, [])
  | v :: rest =>
      match rtrbPush capacity queue v with
      | some q =>
          let step := pushSliceAux capacity q rest
          (step.1, v :: step.2)
      | none => (queue, [])

/-- `RingBufferWriter::push_slice(slice)`: returns the count actually pushed. -/
def RBState.pushSlice (capacity : ℕ) (s : RBState α) (slice : List α) :
    RBState α × ℕ :=
  let step := pushSliceAux capacity s.queue slice
  ({ s with queue := step.1, attempted := s.attempted ++ slice,
            accepted := s.accepted ++ step.2 }, step.2.length)

/-- `RingBufferReader::pop` (src/buffer/ring.rs 142-146): an empty queue
yields `AudioEngineError::RingBufferEmpty {count: 1}`. -/
def RBState.pop (s : RBState α) : RBState α × Except AudioEngineError α :=
  match rtrbPop s.queue with
  | some (x, rest) =>
      ({ s with queue := rest, consumed := s.consumed ++ [x],
                popped := s.popped ++ [x] }, .ok x)
  | none => (s, .error (.RingBufferEmpty 1))

/-- The loop body shared by `RingBufferReader::pop_slice` and
`RingBufferReader::discard`: pop up to `n` elements, returning the elements
removed (in order) and the remaining queue. -/
def popManyAux (queue : List α) : ℕ → List α × List α
  | 0 => ([], queue)
  | n + 1 =>
      match rtrbPop queue with
      | some (x, rest) =>
          let step := popManyAux rest n
          (x :: step.1, step.2)
      | none => ([], queue)

/-- `RingBufferReader::pop_slice(slice)` (src/buffer/ring.rs 151-165) with a
destination of length `n`: returns the count actually popped. -/
def RBState.popSlice (s : RBState α) (n : ℕ) : RBState α × ℕ :=
  let step := popManyAux s.queue n
  ({ s with queue := step.2, consumed := s.consumed ++ step.1,
            popped := s.popped ++ step.1 }, step.1.length)

/-- `RingBufferReader::discard(count)` (src/buffer/ring.rs 175-185): removed
elements are consumed but never observed by the reader. -/
def RBState.discard (s : RBState α) (n : ℕ) : RBState α × ℕ :=
  let step := popManyAux s.queue n
  ({ s with queue := step.2, consumed := s.consumed ++ step.1 },
   step.1.length)

/-- One writer or reader operation of the interleaved history. -/
inductive RBOp (α : Type) where
  | push (v : α)
  | pushSlice (vs : List α)
  | pop
  | popSlice (n : ℕ)
  | discard (n : ℕ)
deriving DecidableEq, Repr

/-- Apply one operation to the traced ring-buffer state. -/
def RBState.step (capacity : ℕ) (s : RBState α) : RBOp α → RBState α
  | .push v => (s.push capacity v).1
  | .pushSlice vs => (s.pushSlice capacity vs).1
  | .pop => s.pop.1
  | .popSlice n => (s.popSlice n).1
  | .discard n => (s.discard n).1

/-- Run an arbitrary interleaved sequence of writer/reader operations against
a ring buffer of the given capacity, starting from the fresh pair. -/
def RBState.run (capacity : ℕ) (ops : List (RBOp α)) : RBState α :=
  ops.foldl (RBState.step capacity) RBState.init

/-- The ring-buffer history invariant: the elements consumed so far followed
by the outstanding queue are exactly the accepted pushes in order (FIFO, no
reordering, duplication or loss); the accepted pushes are an in-order
subsequence of everything offered; the elements the reader observed are an
in-order subsequence of the consumed ones (the rest were explicitly
discarded); and the queue never holds more than `capacity` elements. -/
def rbInv (capacity : ℕ) (s : RBState α) : Prop :=
  s.consumed ++ s.queue = s.accepted ∧
  s.accepted.Sublist s.attempted ∧
  s.popped.Sublist s.consumed ∧
  s.queue.length ≤ capacity

/-- `PanEffect` (src/dsp/pan.rs): enabled flag, smoothed pan position, and the
active sample rate (the introspection-only `param_info` table is omitted). -/
structure PanEffect where
  enabled : Bool
  pan : SmoothParam ℝ
  sample_rate : SampleRate

/-- The per-frame loop of `PanEffect::process` (src/dsp/pan.rs 88-96) over
`chunks_exact_mut(channel_count)`: each full `k`-wide frame advances the pan
ramp once and rescales the frame only when it is exactly `[left, right]`;
the trailing partial chunk is untouched. -/
noncomputable def panFrames (k : ℕ) (pan : SmoothParam ℝ) (samples : List ℝ) :
    SmoothParam ℝ × List ℝ :=
  if _h : 0 < k ∧ k ≤ samples.length then
    let frame := samples.take k
    let rest := samples.drop k
    let stepped := pan.next realOps
    let position := Pan.new stepped.1
    let frame2 :=
      match frame with
      | [l, r] => [l * Real.cos (Pan.angle position),
                   r * Real.sin (Pan.angle position)]
      | other => other
    let tail := panFrames k stepped.2 rest
    (tail.1, frame2 ++ tail.2)
  else
    (pan, samples)
termination_by samples.length
decreasing_by simp only [List.length_drop]; omega

/-- `PanEffect::process(samples, channels)` (src/dsp/pan.rs 82-97): disabled
is a pass-through, otherwise the per-frame loop runs with
`channels.count_usize()`-wide frames. -/
noncomputable def PanEffect.process (e : PanEffect) (samples : List ℝ)
    (channels : ChannelCount) : PanEffect × List ℝ :=
  if e.enabled = false then (e, samples)
  else
    let step := panFrames channels.count e.pan samples
    ({ e with pan := step.1 }, step.2)

/-- `FilterType` (src/dsp/filters.rs). -/
inductive FilterType where
  | LowPass
  | HighPass
  | BandPass
  | Notch
  | Peak
  | LowShelf
  | HighShelf
deriving DecidableEq, Repr

/-- `BiquadCoeffs` (src/dsp/filters.rs): the five normalized coefficients. -/
structure BiquadCoeffs where
  b0 : ℝ
  b1 : ℝ
  b2 : ℝ
  a1 : ℝ
  a2 : ℝ

/-- The all-zero `BiquadCoeffs::default()`. -/
noncomputable def BiquadCoeffs.default : BiquadCoeffs := ⟨0, 0, 0, 0, 0⟩

/-- `BiquadState` (src/dsp/filters.rs): two samples of input/output history. -/
structure BiquadState where
  x1 : ℝ
  x2 : ℝ
  y1 : ℝ
  y2 : ℝ

/-- The all-zero `BiquadState::default()`. -/
noncomputable def BiquadState.default : BiquadState := ⟨0, 0, 0, 0⟩

/-- `BiquadState::process(input, coeffs)` (src/dsp/filters.rs 45-56): the
difference equation `y = b0 x + b1 x1 + b2 x2 - a1 y1 - a2 y2` with the
two-sample history shift. -/
noncomputable def BiquadState.process (s : BiquadState) (input : ℝ)
    (c : BiquadCoeffs) : ℝ × BiquadState :=
  let output := c.b0 * input + c.b1 * s.x1 + c.b2 * s.x2
      - c.a1 * s.y1 - c.a2 * s.y2
  (output, ⟨input, s.x1, output, s.y1⟩)

/-- `BiquadFilter` (src/dsp/filters.rs 66-79). The Rust per-channel state is
`[BiquadState; 8]` indexed by channel; it is modelled as a total map from the
channel index (the effect only touches channels below the frame width, which
is at most 8). The introspection-only `param_info` table is omitted. -/
structure BiquadFilter where
  enabled : Bool
  filter_type : FilterType
  frequency : SmoothParam ℝ
  q : SmoothParam ℝ
  gain_db : SmoothParam ℝ
  sample_rate : SampleRate
  coeffs : BiquadCoeffs
  states : ℕ → BiquadState
  coeffs_dirty : Bool

/-- The sample-rate value `BiquadFilter::update_coefficients` actually divides
by (src/dsp/filters.rs line 183): the Rust source computes
`f32::from(u16::try_from(self.sample_rate.as_hz()).unwrap_or(48000))`, so any
rate above `u16::MAX = 65535` silently becomes `48000.0`. -/
noncomputable def biquad_fs (r : SampleRate) : ℝ :=
  if r.as_hz ≤ 65535 then (r.as_hz : ℝ) else 48000

/-- `BiquadFilter::update_coefficients` (src/dsp/filters.rs 182-275): clamp
the frequency to `[20, fs * 0.49]`, form the cookbook raw coefficients for the
active filter type from `omega = 2 pi freq / fs`, `alpha = sin(omega)/(2 q)`
and (for Peak/Shelf) `a = 10^(gain/40)`, then normalize by `a0`. -/
noncomputable def BiquadFilter.update_coefficients (f : BiquadFilter) :
    BiquadFilter :=
  let fs := biquad_fs f.sample_rate
  let freq := max 20 (min f.frequency.current (fs * 0.49))
  let q := f.q.current
  let gain := f.gain_db.current
  let omega := 2 * Real.pi * freq / fs
  let sin_omega := Real.sin omega
  let cos_omega := Real.cos omega
  let alpha := sin_omega / (2 * q)
  let raw : ℝ × ℝ × ℝ × ℝ × ℝ × ℝ :=
    match f.filter_type with
    | .LowPass =>
        let b1 := 1 - cos_omega
        let b0 := b1 / 2
        (b0, b1, b0, 1 + alpha, -2 * cos_omega, 1 - alpha)
    | .HighPass =>
        let b1 := -(1 + cos_omega)
        let b0 := (1 + cos_omega) / 2
        (b0, b1, b0, 1 + alpha, -2 * cos_omega, 1 - alpha)
    | .BandPass =>
        (alpha, 0, -alpha, 1 + alpha, -2 * cos_omega, 1 - alpha)
    | .Notch =>
        (1, -2 * cos_omega, 1, 1 + alpha, -2 * cos_omega, 1 - alpha)
    | .Peak =>
        let a := (10 : ℝ) ^ (gain / 40)
        (1 + alpha * a, -2 * cos_omega, 1 - alpha * a,
         1 + alpha / a, -2 * cos_omega, 1 - alpha / a)
    | .LowShelf =>
        let a := (10 : ℝ) ^ (gain / 40)
        let sqrt_a := Real.sqrt a
        (a * ((a + 1) - (a - 1) * cos_omega + 2 * sqrt_a * alpha),
         2 * a * ((a - 1) - (a + 1) * cos_omega),
         a * ((a + 1) - (a - 1) * cos_omega - 2 * sqrt_a * alpha),
         (a + 1) + (a - 1) * cos_omega + 2 * sqrt_a * alpha,
         -2 * ((a - 1) + (a + 1) * cos_omega),
         (a + 1) + (a - 1) * cos_omega - 2 * sqrt_a * alpha)
    | .HighShelf =>
        let a := (10 : ℝ) ^ (gain / 40)
        let sqrt_a := Real.sqrt a
        (a * ((a + 1) + (a - 1) * cos_omega + 2 * sqrt_a * alpha),
         -2 * a * ((a - 1) + (a + 1) * cos_omega),
         a * ((a + 1) + (a - 1) * cos_omega - 2 * sqrt_a * alpha),
         (a + 1) - (a - 1) * cos_omega + 2 * sqrt_a * alpha,
         2 * ((a - 1) - (a + 1) * cos_omega),
         (a + 1) - (a - 1) * cos_omega - 2 * sqrt_a * alpha)
  let a0_inv := 1 / raw.2.2.2.1
  { f with
    coeffs := ⟨raw.1 * a0_inv, raw.2.1 * a0_inv, raw.2.2.1 * a0_inv,
               raw.2.2.2.2.1 * a0_inv, raw.2.2.2.2.2 * a0_inv⟩,
    coeffs_dirty := false }

/-- `BiquadFilter::with_params` (src/dsp/filters.rs 88-130), minus the
introspection table: smoothed parameters at their initial values, the default
48 kHz rate, zeroed per-channel state, dirty coefficients, then one
`update_coefficients` call. -/
noncomputable def BiquadFilter.with_params (filter_type : FilterType)
    (frequency q gain_db : ℝ) : BiquadFilter :=
  BiquadFilter.update_coefficients
    { enabled := true
      filter_type := filter_type
      frequency := SmoothParam.new realOps frequency
      q := SmoothParam.new realOps q
      gain_db := SmoothParam.new realOps gain_db
      sample_rate := .Hz48000
      coeffs := BiquadCoeffs.default
      states := fun _ => BiquadState.default
      coeffs_dirty := true }

/-- `BiquadFilter::initialize(sample_rate, channels)` (src/dsp/filters.rs
314-317): store the rate and recompute the coefficients. -/
noncomputable def BiquadFilter.initSampleRate (f : BiquadFilter) (r : SampleRate)
    (_channels : ChannelCount) : BiquadFilter :=
  BiquadFilter.update_coefficients { f with sample_rate := r }

/-- The inner loop of `BiquadFilter::process` over one frame (src/dsp/filters.rs
337-340): channel `ch` of the frame goes through `states[ch]`. -/
noncomputable def biquadFrame (c : BiquadCoeffs) (states : ℕ → BiquadState)
    (ch : ℕ) : List ℝ → (ℕ → BiquadState) × List ℝ
  | [] => (states, [])
  | x :: rest =>
      let step := (states ch).process x c
      let states2 := fun i => if i = ch then step.2 else states i
      let tail := biquadFrame c states2 (ch + 1) rest
      (tail.1, step.1 :: tail.2)

/-- The outer loop of `BiquadFilter::process` over
`chunks_exact_mut(channel_count)` (src/dsp/filters.rs 336-341). -/
noncomputable def biquadFrames (c : BiquadCoeffs) (states : ℕ → BiquadState)
    (k : ℕ) (samples : List ℝ) : (ℕ → BiquadState) × List ℝ :=
  if _h : 0 < k ∧ k ≤ samples.length then
    let frame := biquadFrame c states 0 (samples.take k)
    let tail := biquadFrames c frame.1 k (samples.drop k)
    (tail.1, frame.2 ++ tail.2)
  else
    (states, samples)
termination_by samples.length
decreasing_by simp only [List.length_drop]; omega

/-- `BiquadFilter::process(samples, channels)` (src/dsp/filters.rs 319-342):
disabled is a pass-through; if the coefficients are dirty or any parameter is
still ramping, each of the three smoothed parameters advances by exactly one
`next()` step and the coefficients are recomputed, once per call; then every
full frame is filtered per channel. -/
noncomputable def BiquadFilter.process (f : BiquadFilter) (samples : List ℝ)
    (channels : ChannelCount) : BiquadFilter × List ℝ :=
  if f.enabled = false then (f, samples)
  else
    let f1 :=
      if f.coeffs_dirty || f.frequency.is_smoothing || f.q.is_smoothing
          || f.gain_db.is_smoothing then
        BiquadFilter.update_coefficients
          { f with frequency := (f.frequency.next realOps).2,
                   q := (f.q.next realOps).2,
                   gain_db := (f.gain_db.next realOps).2 }
      else f
    let step := biquadFrames f1.coeffs f1.states channels.count samples
    ({ f1 with states := step.1 }, step.2)

/-- A concrete enabled low-pass `BiquadFilter` whose frequency parameter is
mid-ramp (3 steps remaining) and whose Q parameter is idle, used to exercise
`BiquadFilter::process` on a concrete input. -/
noncomputable def biquadFixture : BiquadFilter :=
  ⟨true, .LowPass, ⟨0, 1, 1, 3⟩, ⟨1, 1, 0, 0⟩, ⟨0, 0, 0, 0⟩, .Hz48000,
    BiquadCoeffs.default, fun _ => BiquadState.default, false⟩

/-! ## Theorems -/

theorem smoothParam_reaches_target_aux (F : FloatOps α) :
    ∀ (n : ℕ) (p : SmoothParam α), p.samples_remaining = n → 0 < n →
      (p.nextN F n).current = p.target := by
  intro n
  induction n with
  | zero => intro p _ h0; exact absurd h0 (by omega)
  | succ n ih =>
    intro p hrem _
    have hstep : SmoothParam.nextN F p (n + 1)
        = SmoothParam.nextN F (p.next F).2 n := rfl
    rw [hstep]
    rcases p with ⟨c, t, inc, m⟩
    simp only [SmoothParam.samples_remaining] at hrem
    subst hrem
    by_cases hn : n = 0
    · subst hn
      simp [SmoothParam.next, SmoothParam.nextN]
    · have hone : (SmoothParam.next F ⟨c, t, inc, n + 1⟩).2
          = ⟨F.add c inc, t, inc, n⟩ := by
        simp [SmoothParam.next, hn]
      rw [hone]
      exact ih _ rfl (by omega)

/-- C3: for every arithmetic (in particular `f32`), every `SmoothParam`,
every target and every `n ≥ 0`, `set_target(t, n)` followed by exactly `n`
calls of `next()` leaves `current` exactly equal to `t`: the final step snaps
to the stored target, so there is no residual drift; `n = 0` jumps at once. -/
theorem smoothParam_set_target_exact (α : Type) (F : FloatOps α)
    (p : SmoothParam α) (t : α) (n : ℕ) :
    ((p.set_target F t n).nextN F n).current = t := by
  rcases Nat.eq_zero_or_pos n with h0 | hpos
  · subst h0
    simp [SmoothParam.set_target, SmoothParam.nextN]
  · have h1 : (p.set_target F t n).samples_remaining = n := by
      simp [SmoothParam.set_target, Nat.pos_iff_ne_zero.mp hpos]
    have h2 : (p.set_target F t n).target = t := by
      unfold SmoothParam.set_target
      split <;> rfl
    have h3 := smoothParam_reaches_target_aux F n (p.set_target F t n) h1 hpos
    rw [h2] at h3
    exact h3

/-- C4 (code bug): the `as_hz`/`try_from` round-trip succeeds for 44100,
48000 and 96000 but fails for 192000, because the source matches on the
literal `19200` instead of `192000`: `try_from(192000)` returns the
invalid-sample-rate error while the out-of-set value `19200` is accepted. -/
theorem sampleRate_tryFrom_roundtrip_bug :
    SampleRate.tryFrom (SampleRate.as_hz .Hz44100) = .ok .Hz44100 ∧
    SampleRate.tryFrom (SampleRate.as_hz .Hz48000) = .ok .Hz48000 ∧
    SampleRate.tryFrom (SampleRate.as_hz .Hz96000) = .ok .Hz96000 ∧
    SampleRate.tryFrom (SampleRate.as_hz .Hz192000)
      = .error (.InvalidSampleRate 192000) ∧
    SampleRate.tryFrom 19200 = .ok .Hz192000 :=
  ⟨rfl, rfl, rfl, rfl, rfl⟩

/-- C7: `copy_from_slice(src)` errors with the buffer-overflow error exactly
when `src.len() > capacity`, leaving the buffer untouched; otherwise it
succeeds, the first `src.len()` elements of the backing store equal `src`,
`len = src.len()`, and the capacity is unchanged. -/
theorem realtimeBuffer_copy_from_slice_spec (α : Type) (b : RealtimeBuffer α)
    (src : List α) :
    ((b.copy_from_slice src).2
        = .error (.BufferOverflow src.length b.capacity)
      ↔ b.capacity < src.length) ∧
    ((b.copy_from_slice src).2 = .ok () ↔ src.length ≤ b.capacity) ∧
    (b.capacity < src.length → (b.copy_from_slice src).1 = b) ∧
    (src.length ≤ b.capacity →
      (b.copy_from_slice src).1.data.take src.length = src ∧
      (b.copy_from_slice src).1.len = src.length ∧
      (b.copy_from_slice src).1.capacity = b.capacity) := by
  unfold RealtimeBuffer.copy_from_slice RealtimeBuffer.capacity
  by_cases h : src.length > b.data.length
  · rw [if_pos h]
    refine ⟨⟨fun _ => h, fun _ => rfl⟩, ?_, fun _ => rfl, fun hle => absurd hle (by omega)⟩
    constructor
    · intro hc
      exact absurd hc (by simp)
    · intro hle
      exact absurd hle (by omega)
  · rw [if_neg h]
    push_neg at h
    refine ⟨?_, ⟨fun _ => h, fun _ => rfl⟩, fun hlt => absurd hlt (by omega), ?_⟩
    · constructor
      · intro hc
        exact absurd hc (by simp)
      · intro hlt
        exact absurd hlt (by omega)
    · intro _
      refine ⟨List.take_left src _, rfl, ?_⟩
      simp only [List.length_append, List.length_drop]
      omega

/-- C8: on a freshly constructed `AudioBuffer::new(frames, channels)`,
`get_sample(frame, channel)` is `none` exactly when `frame ≥ frames` or
`channel ≥ channel_count` (including the degenerate `frames = 0` case), and
otherwise returns the stored silence sample; being `Option`-valued, it can
never panic. -/
theorem audioBuffer_get_sample_spec (frames : ℕ) (channels : ChannelCount)
    (frame channel : ℕ) :
    ((AudioBuffer.new frames channels).get_sample frame channel = none
        ↔ frames ≤ frame ∨ channels.count ≤ channel) ∧
    (frame < frames → channel < channels.count →
      (AudioBuffer.new frames channels).get_sample frame channel
        = some Sample.SILENCE) := by
  have hsome : ∀ (_ : frame < frames) (_ : channel < channels.count),
      (AudioBuffer.new frames channels).get_sample frame channel
        = some Sample.SILENCE := by
    intro hf hc
    have hidx : frame * channels.count + channel < frames * channels.count := by
      calc frame * channels.count + channel
          < frame * channels.count + channels.count := by omega
        _ = (frame + 1) * channels.count := by ring
        _ ≤ frames * channels.count := Nat.mul_le_mul_right _ (by omega)
    simp [AudioBuffer.new, AudioBuffer.get_sample, RealtimeBuffer.get,
      RealtimeBuffer.with_value, hf, hc, hidx, List.get?_eq_getElem?,
      List.getElem?_replicate]
  refine ⟨⟨?_, ?_⟩, hsome⟩
  · intro hnone
    by_contra hcon
    push_neg at hcon
    rw [hsome (by omega) (by omega)] at hnone
    cases hnone
  · intro hor
    have hno : ¬(frame < frames ∧ channel < channels.count) := by omega
    simp [AudioBuffer.get_sample, AudioBuffer.new, RealtimeBuffer.with_value, hno]

/-- C6: the dB↔linear law of `Gain`: `from_db(0)` is unity gain; any level at
or below -80 dB is exact silence; and for every `db` in `(-80, 24]` the
round-trip `from_db(db).as_db()` recovers `db` exactly in the real model. -/
theorem gain_db_linear_law :
    Gain.from_db 0 = 1 ∧
    (∀ db : ℝ, db ≤ -80 → Gain.from_db db = 0) ∧
    (∀ db : ℝ, -80 < db → db ≤ 24 → Gain.as_db (Gain.from_db db) = db) := by
  refine ⟨?_, ?_, ?_⟩
  · rw [Gain.from_db, if_neg (by norm_num)]
    norm_num
  · intro db hle
    rw [Gain.from_db, if_pos hle]
  · intro db h1 h2
    have hmin : min db 24 = db := min_eq_left h2
    rw [Gain.from_db, if_neg (by linarith), hmin]
    have hpos : (0 : ℝ) < (10 : ℝ) ^ (db / 20) :=
      Real.rpow_pos_of_pos (by norm_num) _
    rw [Gain.as_db, if_neg (by linarith),
      Real.logb_rpow (by norm_num) (by norm_num)]
    ring

/-- Witness for C6 at `db = -100` (silence branch) and `db = 20` (round-trip
branch), applying `gain_db_linear_law` with its hypotheses discharged. -/
theorem gain_db_linear_law_witness :
    ((-100 : ℝ) ≤ -80 ∧ Gain.from_db (-100) = 0) ∧
    ((-80 : ℝ) < 20 ∧ (20 : ℝ) ≤ 24 ∧ Gain.as_db (Gain.from_db 20) = 20) :=
  ⟨⟨by norm_num, gain_db_linear_law.2.1 (-100) (by norm_num)⟩,
   ⟨by norm_num, by norm_num,
    gain_db_linear_law.2.2 20 (by norm_num) (by norm_num)⟩⟩

/-- C5: for every pan position in `[-1, 1]`, `Pan::gains` returns the
constant-power pair `(cos((p+1)π/4), sin((p+1)π/4))` without panicking (both
gains are nonnegative, so `Gain::new` accepts them); the squared gains always
sum to 1, at center the gains coincide, at full left the right gain is 0, and
at full right the left gain is 0. -/
theorem pan_gains_constant_power (p : ℝ) (h1 : -1 ≤ p) (h2 : p ≤ 1) :
    Pan.gains p = some (Real.cos (Pan.angle p), Real.sin (Pan.angle p)) ∧
    Real.cos (Pan.angle p) ^ 2 + Real.sin (Pan.angle p) ^ 2 = 1 ∧
    (p = 0 → Real.cos (Pan.angle p) = Real.sin (Pan.angle p)) ∧
    (p = -1 → Real.sin (Pan.angle p) = 0) ∧
    (p = 1 → Real.cos (Pan.angle p) = 0) := by
  have hpi := Real.pi_pos
  have hlo : 0 ≤ Pan.angle p := by
    rw [Pan.angle]
    have : 0 ≤ p + 1 := by linarith
    positivity
  have hhi : Pan.angle p ≤ Real.pi / 2 := by
    rw [Pan.angle]
    nlinarith
  have hcos : 0 ≤ Real.cos (Pan.angle p) :=
    Real.cos_nonneg_of_mem_Icc ⟨by linarith, hhi⟩
  have hsin : 0 ≤ Real.sin (Pan.angle p) :=
    Real.sin_nonneg_of_nonneg_of_le_pi hlo (by linarith)
  refine ⟨?_, ?_, ?_, ?_, ?_⟩
  · simp [Pan.gains, Pan.left_gain, Pan.right_gain, Gain.new, hcos, hsin]
  · rw [add_comm]
    exact Real.sin_sq_add_cos_sq _
  · intro hp
    subst hp
    have : Pan.angle 0 = Real.pi / 4 := by rw [Pan.angle]; ring
    rw [this, Real.cos_pi_div_four, Real.sin_pi_div_four]
  · intro hp
    subst hp
    have : Pan.angle (-1) = 0 := by rw [Pan.angle]; ring
    rw [this, Real.sin_zero]
  · intro hp
    subst hp
    have : Pan.angle 1 = Real.pi / 2 := by rw [Pan.angle]; ring
    rw [this, Real.cos_pi_div_two]

/-- Witness for C5 at the center position `p = 0`, applying
`pan_gains_constant_power` with its range hypotheses discharged. -/
theorem pan_gains_constant_power_witness :
    ((-1 : ℝ) ≤ 0 ∧ (0 : ℝ) ≤ 1) ∧
    Pan.gains 0 = some (Real.cos (Pan.angle 0), Real.sin (Pan.angle 0)) ∧
    Real.cos (Pan.angle 0) = Real.sin (Pan.angle 0) :=
  ⟨⟨by norm_num, by norm_num⟩,
   (pan_gains_constant_power 0 (by norm_num) (by norm_num)).1,
   (pan_gains_constant_power 0 (by norm_num) (by norm_num)).2.2.1 rfl⟩

theorem panFrames_non_stereo_aux (k : ℕ) (hk : k ≠ 2) :
    ∀ (n : ℕ) (samples : List ℝ), samples.length ≤ n →
      ∀ (pan : SmoothParam ℝ), (panFrames k pan samples).2 = samples := by
  intro n
  induction n with
  | zero =>
    intro samples hlen pan
    rw [panFrames.eq_def, dif_neg (by omega)]
  | succ n ih =>
    intro samples hlen pan
    rw [panFrames.eq_def]
    by_cases hcond : 0 < k ∧ k ≤ samples.length
    · rw [dif_pos hcond]
      simp only
      have htk : (samples.take k).length = k := by
        simp [List.length_take]
        omega
      have hframe : ∀ (position : ℝ),
          (match samples.take k with
            | [l, r] => [l * Real.cos (Pan.angle position),
                         r * Real.sin (Pan.angle position)]
            | other => other) = samples.take k := by
        intro position
        rcases hs : samples.take k with _ | ⟨a, _ | ⟨b, _ | ⟨c, tl⟩⟩⟩
        · rfl
        · rfl
        · rw [hs] at htk
          simp at htk
          omega
        · rfl
      rw [hframe]
      have hrest : (panFrames k (pan.next realOps).2 (samples.drop k)).2
          = samples.drop k := by
        apply ih
        simp only [List.length_drop]
        omega
      rw [hrest]
      exact List.take_append_drop k samples
    · rw [dif_neg hcond]

/-- C9: for every enabled `PanEffect` and every buffer whose channel count is
not exactly 2 (mono, quad, 5.1, 7.1), `process` leaves every sample in the
buffer unchanged: non-stereo frames never match the `[left, right]` pattern,
so the audio data is a no-op. -/
theorem panEffect_process_non_stereo (e : PanEffect) (samples : List ℝ)
    (channels : ChannelCount) (hen : e.enabled = true)
    (hch : channels.count ≠ 2) :
    (e.process samples channels).2 = samples := by
  unfold PanEffect.process
  rw [if_neg (by simp [hen])]
  exact panFrames_non_stereo_aux channels.count hch samples.length samples
    le_rfl e.pan

/-- Witness for C9: an enabled `PanEffect` mid-ramp processing a 3-sample mono
buffer returns the samples unchanged, by `panEffect_process_non_stereo`. -/
theorem panEffect_process_non_stereo_witness :
    (PanEffect.enabled ⟨true, ⟨0, 1, 1, 4⟩, .Hz48000⟩ = true) ∧
    ChannelCount.count .Mono ≠ 2 ∧
    (PanEffect.process ⟨true, ⟨0, 1, 1, 4⟩, .Hz48000⟩ [1, 2, 3] .Mono).2
      = [1, 2, 3] :=
  ⟨rfl, by decide, panEffect_process_non_stereo _ _ _ rfl (by decide)⟩

/-- C2 (code bug): `update_coefficients` divides by
`f32::from(u16::try_from(sample_rate.as_hz()).unwrap_or(48000))`, so for the
supported rates 96000 and 192000 — which exceed `u16::MAX` — the conversion
fails and `fs` silently falls back to 48000 instead of the active sample rate
stored by `initialize`; the derivation `omega = 2*pi*f/fs` therefore uses the
wrong `fs` for those rates (44100 and 48000 are handled correctly). -/
theorem biquad_fs_high_rate_bug :
    biquad_fs .Hz44100 = 44100 ∧
    biquad_fs .Hz48000 = 48000 ∧
    (BiquadFilter.initSampleRate (BiquadFilter.with_params .LowPass 1000 0.707 0)
        .Hz96000 .Stereo).sample_rate = .Hz96000 ∧
    biquad_fs .Hz96000 = 48000 ∧
    biquad_fs .Hz192000 = 48000 ∧
    (48000 : ℝ) ≠ (96000 : ℝ) := by
  refine ⟨?_, ?_, rfl, ?_, ?_, by norm_num⟩ <;>
    norm_num [biquad_fs, SampleRate.as_hz]

theorem biquad_process_smoothing_branch (f : BiquadFilter) (samples : List ℝ)
    (channels : ChannelCount) (hen : f.enabled = true)
    (hcond : (f.coeffs_dirty || f.frequency.is_smoothing || f.q.is_smoothing
        || f.gain_db.is_smoothing) = true) :
    (f.process samples channels).1.frequency = (f.frequency.next realOps).2 ∧
    (f.process samples channels).1.q = (f.q.next realOps).2 ∧
    (f.process samples channels).1.gain_db = (f.gain_db.next realOps).2 := by
  unfold BiquadFilter.process
  rw [if_neg (by simp [hen]), if_pos hcond]
  exact ⟨rfl, rfl, rfl⟩

/-- C10: one call of `BiquadFilter::process` on an enabled filter advances
each mid-ramp smoothed parameter by exactly one `next()` step
(`samples_remaining` drops by exactly 1), no matter how many samples the
processed buffer holds: a change smoothed over `n` samples reaches its target
only after `n` separate `process` invocations. -/
theorem biquad_process_advances_once (f : BiquadFilter) (samples : List ℝ)
    (channels : ChannelCount) (n : ℕ) (hen : f.enabled = true) (hn : 0 < n) :
    (f.frequency.samples_remaining = n →
      (f.process samples channels).1.frequency.samples_remaining = n - 1) ∧
    (f.q.samples_remaining = n →
      (f.process samples channels).1.q.samples_remaining = n - 1) ∧
    (f.gain_db.samples_remaining = n →
      (f.process samples channels).1.gain_db.samples_remaining = n - 1) := by
  have hnext : ∀ p : SmoothParam ℝ, p.samples_remaining = n →
      ((p.next realOps).2).samples_remaining = n - 1 := by
    intro p hp
    simp only [SmoothParam.next]
    rw [if_pos (show 0 < p.samples_remaining by omega)]
    simp [hp]
  refine ⟨fun hf => ?_, fun hq => ?_, fun hg => ?_⟩
  · have hcond : (f.coeffs_dirty || f.frequency.is_smoothing
        || f.q.is_smoothing || f.gain_db.is_smoothing) = true := by
      simp [SmoothParam.is_smoothing, hf, hn]
    rw [(biquad_process_smoothing_branch f samples channels hen hcond).1]
    exact hnext _ hf
  · have hcond : (f.coeffs_dirty || f.frequency.is_smoothing
        || f.q.is_smoothing || f.gain_db.is_smoothing) = true := by
      simp [SmoothParam.is_smoothing, hq, hn]
    rw [(biquad_process_smoothing_branch f samples channels hen hcond).2.1]
    exact hnext _ hq
  · have hcond : (f.coeffs_dirty || f.frequency.is_smoothing
        || f.q.is_smoothing || f.gain_db.is_smoothing) = true := by
      simp [SmoothParam.is_smoothing, hg, hn]
    rw [(biquad_process_smoothing_branch f samples channels hen hcond).2.2]
    exact hnext _ hg

/-- Witness for C10: processing a concrete 2-sample stereo buffer through the
concrete mid-ramp filter drops the frequency ramp from 3 remaining steps to
2, by `biquad_process_advances_once`. -/
theorem biquad_process_advances_once_witness :
    biquadFixture.enabled = true ∧
    (0 : ℕ) < 3 ∧
    biquadFixture.frequency.samples_remaining = 3 ∧
    (biquadFixture.process [1, 2] .Stereo).1.frequency.samples_remaining = 2 :=
  ⟨rfl, by norm_num, rfl,
   (biquad_process_advances_once biquadFixture [1, 2] .Stereo 3 rfl
     (by norm_num)).1 rfl⟩

theorem pushSliceAux_spec (capacity : ℕ) :
    ∀ (vs queue : List α),
      (pushSliceAux capacity queue vs).1
          = queue ++ (pushSliceAux capacity queue vs).2 ∧
      (pushSliceAux capacity queue vs).2.Sublist vs ∧
      (queue.length ≤ capacity →
        (pushSliceAux capacity queue vs).1.length ≤ capacity) := by
  intro vs
  induction vs with
  | nil =>
    intro queue
    simp [pushSliceAux]
  | cons v rest ih =>
    intro queue
    rw [pushSliceAux]
    unfold rtrbPush
    by_cases h : queue.length < capacity
    · rw [if_pos h]
      simp only
      obtain ⟨ih1, ih2, ih3⟩ := ih (queue ++ [v])
      refine ⟨?_, ih2.cons₂ v, fun _ => ?_⟩
      · rw [ih1]
        simp
      · exact ih3 (by simp; omega)
    · rw [if_neg h]
      simp only
      exact ⟨by simp, List.nil_sublist _, fun hle => hle⟩

theorem popManyAux_spec :
    ∀ (n : ℕ) (queue : List α),
      (popManyAux queue n).1 ++ (popManyAux queue n).2 = queue ∧
      (popManyAux queue n).2.length ≤ queue.length := by
  intro n
  induction n with
  | zero =>
    intro queue
    simp [popManyAux]
  | succ n ih =>
    intro queue
    rw [popManyAux]
    unfold rtrbPop
    match queue with
    | [] => simp
    | x :: rest =>
      simp only
      obtain ⟨ih1, ih2⟩ := ih rest
      constructor
      · simp [ih1]
      · simp
        omega


theorem rbPush_ok (capacity : ℕ) (s : RBState α) (v : α)
    (h : s.queue.length < capacity) :
    s.push capacity v
      = ({ s with queue := s.queue ++ [v], attempted := s.attempted ++ [v],
                  accepted := s.accepted ++ [v] }, .ok ()) := by
  simp [RBState.push, rtrbPush, h]

theorem rbPush_full (capacity : ℕ) (s : RBState α) (v : α)
    (h : ¬ s.queue.length < capacity) :
    s.push capacity v
      = ({ s with attempted := s.attempted ++ [v] },
         .error (.RingBufferFull 1)) := by
  simp [RBState.push, rtrbPush, h]

theorem rbPop_cons (s : RBState α) (x : α) (rest : List α)
    (h : s.queue = x :: rest) :
    s.pop = ({ s with queue := rest, consumed := s.consumed ++ [x],
                      popped := s.popped ++ [x] }, .ok x) := by
  simp [RBState.pop, rtrbPop, h]

theorem rbPop_nil (s : RBState α) (h : s.queue = []) :
    s.pop = (s, .error (.RingBufferEmpty 1)) := by
  simp [RBState.pop, rtrbPop, h]

theorem rbStep_preserves_inv (capacity : ℕ) (s : RBState α) (op : RBOp α)
    (hinv : rbInv capacity s) : rbInv capacity (s.step capacity op) := by
  obtain ⟨h1, h2, h3, h4⟩ := hinv
  cases op with
  | push v =>
    by_cases h : s.queue.length < capacity
    · rw [RBState.step, rbPush_ok capacity s v h]
      refine ⟨?_, h2.append (List.Sublist.refl [v]), ?_, ?_⟩
      · simp only
        rw [← List.append_assoc, h1]
      · exact h3
      · simp only [List.length_append, List.length_singleton]
        omega
    · rw [RBState.step, rbPush_full capacity s v h]
      exact ⟨h1, h2.trans (List.sublist_append_left _ _), h3, h4⟩
  | pushSlice vs =>
    obtain ⟨ha1, ha2, ha3⟩ := pushSliceAux_spec capacity vs s.queue
    rw [RBState.step, RBState.pushSlice]
    refine ⟨?_, h2.append ha2, ?_, ?_⟩
    · simp only
      rw [ha1, ← List.append_assoc, h1]
    · exact h3
    · simp only
      exact ha3 h4
  | pop =>
    rcases hq : s.queue with _ | ⟨x, rest⟩
    · rw [RBState.step, rbPop_nil s hq]
      exact ⟨h1, h2, h3, h4⟩
    · rw [RBState.step, rbPop_cons s x rest hq]
      refine ⟨?_, h2, h3.append (List.Sublist.refl [x]), ?_⟩
      · simp only
        rw [List.append_assoc, List.singleton_append, ← hq, h1]
      · simp only
        rw [hq] at h4
        simp at h4
        omega
  | popSlice n =>
    obtain ⟨hp1, hp2⟩ := popManyAux_spec n s.queue
    rw [RBState.step, RBState.popSlice]
    refine ⟨?_, h2, h3.append (List.Sublist.refl _), ?_⟩
    · simp only
      rw [List.append_assoc, hp1, h1]
    · simp only
      omega
  | discard n =>
    obtain ⟨hp1, hp2⟩ := popManyAux_spec n s.queue
    rw [RBState.step, RBState.discard]
    refine ⟨?_, h2, h3.trans (List.sublist_append_left _ _), ?_⟩
    · simp only
      rw [List.append_assoc, hp1, h1]
    · simp only
      omega

theorem rbRun_inv (capacity : ℕ) (ops : List (RBOp α)) :
    rbInv capacity (RBState.run capacity ops) := by
  have hgen : ∀ (l : List (RBOp α)) (s : RBState α), rbInv capacity s →
      rbInv capacity (l.foldl (RBState.step capacity) s) := by
    intro l
    induction l with
    | nil => intro s hs; exact hs
    | cons op rest ih =>
      intro s hs
      exact ih _ (rbStep_preserves_inv capacity s op hs)
  exact hgen ops RBState.init
    ⟨rfl, List.Sublist.refl _, List.Sublist.refl _, by simp [RBState.init]⟩

/-- C1: for every capacity and every interleaved sequence of
`push`/`push_slice`/`pop`/`pop_slice`/`discard` operations on the pair
returned by `RingBuffer::new(capacity)`: the consumed elements followed by the
outstanding queue are exactly the accepted pushes in push order (FIFO — no
reordering, no duplication, no loss except explicit `discard`); what the
reader observes is an in-order subsequence of the consumed elements and hence
of the pushes; the number popped never exceeds the number pushed; the queue
never holds more than `capacity` elements; and a `push` arriving when exactly
`capacity` elements are outstanding fails with the ring-buffer-full error. -/
theorem ringBuffer_fifo_spec (α : Type) (capacity : ℕ) (ops : List (RBOp α))
    (v : α) :
    (RBState.run capacity ops).consumed ++ (RBState.run capacity ops).queue
        = (RBState.run capacity ops).accepted ∧
    (RBState.run capacity ops).popped.Sublist
        (RBState.run capacity ops).consumed ∧
    (RBState.run capacity ops).accepted.Sublist
        (RBState.run capacity ops).attempted ∧
    (RBState.run capacity ops).popped.length
        ≤ (RBState.run capacity ops).attempted.length ∧
    (RBState.run capacity ops).queue.length ≤ capacity ∧
    ((RBState.run capacity ops).queue.length = capacity →
      ((RBState.run capacity ops).push capacity v).2
        = .error (.RingBufferFull 1)) := by
  obtain ⟨h1, h2, h3, h4⟩ := rbRun_inv capacity ops
  refine ⟨h1, h3, h2, ?_, h4, ?_⟩
  · have hlen1 := h3.length_le
    have hlen2 := h2.length_le
    have hlen3 : (RBState.run capacity ops).consumed.length
        ≤ (RBState.run capacity ops).accepted.length := by
      rw [← h1]
      simp
    omega
  · intro hfull
    rw [rbPush_full capacity _ v (by omega)]

/-- Witness for C1: a concrete interleaving on a capacity-2 buffer (including
a rejected `push_slice`, pops, and a discard) ends with a full queue, and the
next `push` fails with the ring-buffer-full error, by `ringBuffer_fifo_spec`. -/
theorem ringBuffer_fifo_spec_witness :
    (RBState.run 2 [RBOp.push (5 : ℤ), .push 7, .pushSlice [9, 11, 13], .pop,
        .popSlice 2, .push 15, .discard 1, .push 17, .push 19]).queue.length
      = 2 ∧
    ((RBState.run 2 [RBOp.push (5 : ℤ), .push 7, .pushSlice [9, 11, 13], .pop,
        .popSlice 2, .push 15, .discard 1, .push 17, .push 19]).push 2 21).2
      = .error (.RingBufferFull 1) :=
  ⟨by decide, (ringBuffer_fifo_spec ℤ 2 _ 21).2.2.2.2.2 (by decide)⟩

/-- Witness for C7: on a capacity-3 buffer, copying a 2-element slice succeeds
and rewrites the prefix, while copying a 4-element slice is rejected leaving
the buffer untouched, by `realtimeBuffer_copy_from_slice_spec`. -/
theorem realtimeBuffer_copy_from_slice_witness :
    ((2 : ℕ) ≤ (RealtimeBuffer.mk [0, 0, 0] 0 : RealtimeBuffer ℤ).capacity ∧
      ((RealtimeBuffer.mk [0, 0, 0] 0 : RealtimeBuffer ℤ).copy_from_slice
          [4, 5]).1.data.take 2 = [4, 5] ∧
      ((RealtimeBuffer.mk [0, 0, 0] 0 : RealtimeBuffer ℤ).copy_from_slice
          [4, 5]).1.len = 2) ∧
    ((RealtimeBuffer.mk [0, 0, 0] 0 : RealtimeBuffer ℤ).capacity < 4 ∧
      ((RealtimeBuffer.mk [0, 0, 0] 0 : RealtimeBuffer ℤ).copy_from_slice
          [1, 2, 3, 4]).1 = RealtimeBuffer.mk [0, 0, 0] 0) :=
  ⟨⟨by decide,
    ((realtimeBuffer_copy_from_slice_spec ℤ ⟨[0, 0, 0], 0⟩ [4, 5]).2.2.2
      (by decide)).1,
    ((realtimeBuffer_copy_from_slice_spec ℤ ⟨[0, 0, 0], 0⟩ [4, 5]).2.2.2
      (by decide)).2.1⟩,
   ⟨by decide,
    (realtimeBuffer_copy_from_slice_spec ℤ ⟨[0, 0, 0], 0⟩ [1, 2, 3, 4]).2.2.1
      (by decide)⟩⟩

/-- Witness for C8: in a 2-frame stereo buffer, `(1, 1)` is in range and reads
the stored silence sample while frame index 2 is out of range and reads
`none`, by `audioBuffer_get_sample_spec`. -/
theorem audioBuffer_get_sample_witness :
    ((1 : ℕ) < 2 ∧ (1 : ℕ) < ChannelCount.Stereo.count ∧
      (AudioBuffer.new 2 .Stereo).get_sample 1 1 = some Sample.SILENCE) ∧
    ((2 : ℕ) ≤ 2 ∨ ChannelCount.Stereo.count ≤ 0) ∧
    (AudioBuffer.new 2 .Stereo).get_sample 2 0 = none :=
  ⟨⟨by decide, by decide,
    (audioBuffer_get_sample_spec 2 .Stereo 1 1).2 (by decide) (by decide)⟩,
   Or.inl (by decide),
   (audioBuffer_get_sample_spec 2 .Stereo 2 0).1.mpr (Or.inl (by decide))⟩
